import Mathlib

/-!
Verification development for the real-time connection/room registry and
event-relay layer of the Parallax proctored-exam server.

The definitions below are a shallow embedding of:
  - server/src/services/ConnectionManager.js   (the registry)
  - server/src/socket/examHandler.js           (join/leave/start/end handlers)
  - server/src/socket/mobileHandler.js         (session bridge and violations)
  - server/src/socket.js                       (namespace wiring, disconnect
    cleanup, admin namespace connection)

JS Maps are modelled as association lists with unique keys where insertion
overwrites in place; JS Sets as duplicate-free lists; missing or null string
fields as Option String; timestamps as Nat arguments supplied by the caller.
Each socket event handler becomes a pure function from server state and
event arguments to the new state plus the list of emissions it performs,
and a separate delivery relation states which connected socket receives a
given emission, mirroring the socket.io targeting primitives
(socket.emit, socket.to(room).emit, namespace.to(room).emit, namespace.emit).
-/

set_option linter.unusedVariables false
set_option linter.unnecessarySeqFocus false

namespace Parallax

/-- Truthiness of an optional JS string value: a missing or null field and
the empty string are falsy, every other string is truthy. -/
def truthy : Option String → Bool
  | none => false
  | some s => !(s == "")

/-- Rendering of a possibly null string value inside a JS template literal. -/
def jsStr : Option String → String
  | none => "null"
  | some s => s

/-- UserConnection record stored by ConnectionManager.addUser. -/
structure Conn where
  socketId : String
  userId : String
  role : String
  examId : Option String
  device : String
  connectedAt : Nat
deriving DecidableEq

/-- The registry Map (socketId to record) as an association list. -/
abbrev Registry := List (String × Conn)

/-- Map.prototype.set: overwrite in place when the key is present, append otherwise. -/
def mapSet : Registry → String → Conn → Registry
  | [], k, v => [(k, v)]
  | (k1, v1) :: rest, k, v =>
      if k1 = k then (k, v) :: rest else (k1, v1) :: mapSet rest k v

/-- Map.prototype.get. -/
def mapGet : Registry → String → Option Conn
  | [], _ => none
  | (k1, v1) :: rest, k => if k1 = k then some v1 else mapGet rest k

/-- Map.prototype.delete: keep exactly the entries with a different key. -/
def mapDelete (m : Registry) (k : String) : Registry :=
  m.filter (fun p => !decide (p.1 = k))

/-- Map.prototype.values in insertion order. -/
def values (m : Registry) : List Conn := m.map Prod.snd

/-- ConnectionManager.addUser. -/
def addUser (m : Registry) (socketId userId role : String)
    (examId : Option String) (device : String) (now : Nat) : Registry :=
  mapSet m socketId ⟨socketId, userId, role, examId, device, now⟩

/-- ConnectionManager.removeUser: returns the removed record or null, plus
the updated registry. -/
def removeUser (m : Registry) (socketId : String) : Option Conn × Registry :=
  match mapGet m socketId with
  | some u => (some u, mapDelete m socketId)
  | none => (none, m)

/-- ConnectionManager.getUser. -/
def getUser (m : Registry) (socketId : String) : Option Conn :=
  mapGet m socketId

/-- ConnectionManager.getUsersByExam with the raw (possibly null) argument. -/
def getUsersByExamV (m : Registry) (examId : Option String) : List Conn :=
  (values m).filter (fun c => decide (c.examId = examId))

/-- ConnectionManager.getUsersByExam applied to a string exam id. -/
def getUsersByExam (m : Registry) (examId : String) : List Conn :=
  getUsersByExamV m (some examId)

/-- ConnectionManager.getUsersByRole. -/
def getUsersByRole (m : Registry) (role : String) : List Conn :=
  (values m).filter (fun c => decide (c.role = role))

/-- ConnectionManager.getConnectedCount. -/
def getConnectedCount (m : Registry) : Nat := m.length

/-- Aggregate snapshot returned by ConnectionManager.getStats. -/
structure Stats where
  total : Nat
  students : Nat
  admins : Nat
  activeExams : Nat
deriving DecidableEq

/-- JS Set.prototype.add on a duplicate-free list. -/
def setAdd (s : List String) (e : String) : List String :=
  if e ∈ s then s else s ++ [e]

/-- Accumulator of the single loop inside getStats. -/
structure StatsAcc where
  students : Nat
  admins : Nat
  exams : List String

/-- One iteration of the getStats loop. -/
def statsStep (a : StatsAcc) (c : Conn) : StatsAcc :=
  { students := if c.role = "student" then a.students + 1 else a.students
    admins := if c.role = "admin" then a.admins + 1 else a.admins
    exams := if truthy c.examId then setAdd a.exams (jsStr c.examId) else a.exams }

/-- ConnectionManager.getStats: one pass over the values plus Map.size. -/
def getStats (m : Registry) : Stats :=
  let a := (values m).foldl statsStep ⟨0, 0, []⟩
  ⟨m.length, a.students, a.admins, a.exams.length⟩

/-- The exam ids collected by the Set inside getStats. -/
def activeExamIds (m : Registry) : List String :=
  ((values m).foldl statsStep ⟨0, 0, []⟩).exams

/-- The exams component of one getStats loop iteration, in isolation. -/
def examStep (s : List String) (c : Conn) : List String :=
  if truthy c.examId then setAdd s (jsStr c.examId) else s

/-- Modelled from the spec: the aggregate counts recomputed by a fresh scan
of the registry, in the spec wording of section 4.1 (total connections,
count where role is student, count where role is admin, count of distinct
non-null examIds currently represented, where the code treats the empty
string like null). Used to compare against getStats. -/
def specStats (m : Registry) : Stats :=
  ⟨m.length,
   ((values m).filter (fun c => decide (c.role = "student"))).length,
   ((values m).filter (fun c => decide (c.role = "admin"))).length,
   ((values m).filterMap
      (fun c => if truthy c.examId then some (jsStr c.examId) else none)).dedup.length⟩

/-- The two socket.io namespaces created by initSocket. -/
inductive Ns
  | exam
  | admin
deriving DecidableEq

/-- A multicast room, scoped to its namespace. -/
structure RoomKey where
  ns : Ns
  room : String
deriving DecidableEq

/-- Room membership: which socket ids have joined which room. -/
abbrev Rooms := List (RoomKey × String)

def inRoom (rs : Rooms) (k : RoomKey) (sid : String) : Bool :=
  decide ((k, sid) ∈ rs)

/-- socket.join. -/
def roomJoin (rs : Rooms) (k : RoomKey) (sid : String) : Rooms :=
  if (k, sid) ∈ rs then rs else rs ++ [(k, sid)]

/-- socket.leave. -/
def roomLeave (rs : Rooms) (k : RoomKey) (sid : String) : Rooms :=
  rs.filter (fun p => decide (p ≠ (k, sid)))

/-- Entry of the users array in the exam-state acknowledgement. -/
structure RosterEntry where
  userId : String
  device : String
  connectedAt : Nat
deriving DecidableEq

/-- Wire event names used by the relay. -/
inductive EventName
  | errorEv
  | examStateEv
  | userJoinedEv
  | userLeftEv
  | examStartEv
  | examEndEv
  | mobileConnectedEv
  | violationDetectedEv
deriving DecidableEq

/-- Payload shapes of the emitted events, one constructor per object shape
appearing in the handlers. -/
inductive Payload
  | errorMsg (message : String)
  | examState (examId : String) (users : List RosterEntry) (message : String)
  | adminState (stats : Stats) (message : String)
  | userJoined (userId device examId : String) (connectedAt : Nat)
  | userLeft (userId device : String) (examId : Option String)
  | startSignal (timestamp : Nat)
  | endSignal (timestamp : Nat)
  | mobileConnected (deviceId : String)
  | violationRelay (violation confidence timestamp examId userId : Option String)
  | violationAdmin (sessionId : Option String) (userId : String)
      (violation confidence timestamp examId : Option String)
deriving DecidableEq

/-- Targeting primitive of one emit call. -/
inductive Target
  | toSelf (ns : Ns) (sid : String)
  | toRoomExcl (ns : Ns) (room : String) (sender : String)
  | toRoomAll (ns : Ns) (room : String)
  | toNs (ns : Ns)
deriving DecidableEq

/-- One emit call performed by a handler. -/
structure Emission where
  target : Target
  event : EventName
  payload : Payload
deriving DecidableEq

/-- A connected socket, for delivery statements. -/
structure SockRef where
  id : String
  ns : Ns
deriving DecidableEq

/-- Delivery semantics of the socket.io targeting primitives: socket.emit
reaches exactly the acting socket, socket.to(room).emit reaches the members
of the room in the same namespace except the sender, namespace.to(room).emit
reaches all members of the room, namespace.emit reaches every socket of the
namespace. -/
def receives (rs : Rooms) (e : Emission) (s : SockRef) : Bool :=
  match e.target with
  | .toSelf ns sid => decide (s.ns = ns) && decide (s.id = sid)
  | .toRoomExcl ns room sender =>
      decide (s.ns = ns) && decide (s.id ≠ sender) && inRoom rs ⟨ns, room⟩ s.id
  | .toRoomAll ns room => decide (s.ns = ns) && inRoom rs ⟨ns, room⟩ s.id
  | .toNs ns => decide (s.ns = ns)

/-- Process-wide server state: the ConnectionManager singleton plus the
room membership held by the transport. -/
structure ServerState where
  registry : Registry
  rooms : Rooms
deriving DecidableEq

/-- Verified identity attached by socketAuthMiddleware as socket.user. -/
structure Auth where
  userId : String
  role : String
deriving DecidableEq

/-- Wire payload of the exam:join event. The userId field is what a client
may put on the wire; the modular handler never reads it. -/
structure JoinPayload where
  userId : Option String := none
  examId : Option String := none
  device : Option String := none
deriving DecidableEq

/-- Room name for an exam. -/
def examRoom (e : String) : String := "exam:" ++ e

/-- JOIN_EXAM handler of server/src/socket/examHandler.js. -/
def joinExam (st : ServerState) (sid : String) (auth : Auth) (p : JoinPayload)
    (now : Nat) : ServerState × List Emission :=
  let userId := auth.userId
  if !(truthy p.examId) then
    (st, [⟨Target.toSelf Ns.exam sid, EventName.errorEv,
           Payload.errorMsg ("examId is required")⟩])
  else
    let examId := jsStr p.examId
    let device := p.device.getD "laptop"
    let roomName := examRoom examId
    let reg := addUser st.registry sid userId auth.role (some examId) device now
    let rooms := roomJoin st.rooms ⟨Ns.exam, roomName⟩ sid
    let roomUsers := getUsersByExam reg examId
    (⟨reg, rooms⟩,
      [⟨Target.toSelf Ns.exam sid, EventName.examStateEv,
          Payload.examState examId
            (roomUsers.map (fun u => ⟨u.userId, u.device, u.connectedAt⟩))
            ("Joined exam " ++ examId)⟩,
       ⟨Target.toRoomExcl Ns.exam roomName sid, EventName.userJoinedEv,
          Payload.userJoined userId device examId now⟩])

/-- LEAVE_EXAM handler of server/src/socket/examHandler.js. -/
def leaveExam (st : ServerState) (sid : String) : ServerState × List Emission :=
  match removeUser st.registry sid with
  | (some user, reg) =>
    let roomName := examRoom (jsStr user.examId)
    (⟨reg, roomLeave st.rooms ⟨Ns.exam, roomName⟩ sid⟩,
      [⟨Target.toRoomExcl Ns.exam roomName sid, EventName.userLeftEv,
          Payload.userLeft user.userId user.device user.examId⟩])
  | (none, reg) => (⟨reg, st.rooms⟩, [])

/-- Transport disconnect cleanup registered in server/src/socket.js on the
exam namespace; translated from that code site. -/
def disconnectExam (st : ServerState) (sid : String) : ServerState × List Emission :=
  match removeUser st.registry sid with
  | (some user, reg) =>
    let roomName := examRoom (jsStr user.examId)
    (⟨reg, roomLeave st.rooms ⟨Ns.exam, roomName⟩ sid⟩,
      [⟨Target.toRoomExcl Ns.exam roomName sid, EventName.userLeftEv,
          Payload.userLeft user.userId user.device user.examId⟩])
  | (none, reg) => (⟨reg, st.rooms⟩, [])

/-- EXAM_START handler of examHandler.js, guarded by the inline role check. -/
def examStart (st : ServerState) (auth : Auth) (examId : Option String)
    (now : Nat) : ServerState × List Emission :=
  if auth.role ≠ "admin" then (st, [])
  else
    (st, [⟨Target.toRoomAll Ns.exam (examRoom (jsStr examId)),
            EventName.examStartEv, Payload.startSignal now⟩])

/-- EXAM_END handler of examHandler.js, guarded by the inline role check. -/
def examEnd (st : ServerState) (auth : Auth) (examId : Option String)
    (now : Nat) : ServerState × List Emission :=
  if auth.role ≠ "admin" then (st, [])
  else
    (st, [⟨Target.toRoomAll Ns.exam (examRoom (jsStr examId)),
            EventName.examEndEv, Payload.endSignal now⟩])

/-- Connection handler of the admin namespace in server/src/socket.js. -/
def adminConnect (st : ServerState) (sid : String) (auth : Auth) (now : Nat) :
    ServerState × List Emission :=
  let reg := addUser st.registry sid auth.userId "admin" none "laptop" now
  (⟨reg, st.rooms⟩,
    [⟨Target.toSelf Ns.admin sid, EventName.examStateEv,
        Payload.adminState (getStats reg)
          ("Admin connected — receiving live updates")⟩])

/-- Disconnect handler of the admin namespace in server/src/socket.js. -/
def adminDisconnect (st : ServerState) (sid : String) : ServerState × List Emission :=
  ((⟨(removeUser st.registry sid).2, st.rooms⟩ : ServerState), [])

/-- MOBILE_JOIN handler of mobileHandler.js; io is the exam namespace. -/
def mobileJoin (st : ServerState) (sid : String) (sessionId : Option String) :
    ServerState × List Emission :=
  if !(truthy sessionId) then (st, [])
  else
    let room := "session:" ++ jsStr sessionId
    (⟨st.registry, roomJoin st.rooms ⟨Ns.exam, room⟩ sid⟩,
      [⟨Target.toRoomAll Ns.exam room, EventName.mobileConnectedEv,
          Payload.mobileConnected sid⟩])

/-- session:join handler of mobileHandler.js. -/
def sessionJoin (st : ServerState) (sid : String) (sessionId : Option String) :
    ServerState × List Emission :=
  if !(truthy sessionId) then (st, [])
  else
    (⟨st.registry, roomJoin st.rooms ⟨Ns.exam, "session:" ++ jsStr sessionId⟩ sid⟩, [])

/-- Wire payload of the violation alert event; the userId field models a
client-supplied field that the object spread would splice over the computed
one. -/
structure ViolationData where
  sessionId : Option String := none
  violation : Option String := none
  confidence : Option String := none
  timestamp : Option String := none
  examId : Option String := none
  userId : Option String := none
deriving DecidableEq

/-- VIOLATION_ALERT handler of mobileHandler.js; io is the exam namespace,
so both emit calls target rooms of the exam namespace. -/
def violationAlert (st : ServerState) (sid : String) (user : Option Auth)
    (data : ViolationData) : ServerState × List Emission :=
  let room := "session:" ++ jsStr data.sessionId
  let relay : Emission :=
    ⟨Target.toRoomAll Ns.exam room, EventName.violationDetectedEv,
      Payload.violationRelay data.violation data.confidence data.timestamp
        data.examId data.userId⟩
  if truthy data.examId then
    let computed := match user with
      | some a => a.userId
      | none => "anonymous-mobile"
    let adminUserId := match data.userId with
      | some u => u
      | none => computed
    (st, [relay,
      ⟨Target.toRoomAll Ns.exam ("monitor:" ++ jsStr data.examId),
        EventName.violationDetectedEv,
        Payload.violationAdmin data.sessionId adminUserId data.violation
          data.confidence data.timestamp data.examId⟩])
  else (st, [relay])

/-- Well-formedness of a registry: keys are unique (a JS Map cannot hold a
key twice) and each stored record carries its own key in the socketId field
(addUser always writes it so). -/
def WFr (m : Registry) : Prop :=
  (m.map Prod.fst).Nodup ∧ ∀ p ∈ m, p.2.socketId = p.1

instance (m : Registry) : Decidable (WFr m) := by
  unfold WFr
  infer_instance

/-- Concrete two-record registry used as a witness input. -/
def wReg : Registry :=
  [("s1", ⟨"s1", "u1", "student", some "EX1", "laptop", 3⟩),
   ("s2", ⟨"s2", "u2", "student", some "EX1", "laptop", 4⟩)]

/-! Basic lemmas about the Map model. -/

theorem mapGet_mapSet_self (m : Registry) (k : String) (v : Conn) :
    mapGet (mapSet m k v) k = some v := by
  induction m with
  | nil => simp [mapSet, mapGet]
  | cons p rest ih =>
    obtain ⟨k1, v1⟩ := p
    by_cases h : k1 = k <;> simp [mapSet, mapGet, h, ih]

theorem mapGet_mapSet_ne (m : Registry) (k k2 : String) (v : Conn)
    (h : k2 ≠ k) : mapGet (mapSet m k v) k2 = mapGet m k2 := by
  induction m with
  | nil => simp [mapSet, mapGet, Ne.symm h]
  | cons p rest ih =>
    obtain ⟨k1, v1⟩ := p
    by_cases h1 : k1 = k
    · have h2 : ¬ k = k2 := Ne.symm h
      simp [mapSet, mapGet, h1, h2]
    · by_cases h2 : k1 = k2 <;> simp [mapSet, mapGet, h1, h2, h, ih]

theorem mapGet_mapDelete_self (m : Registry) (k : String) :
    mapGet (mapDelete m k) k = none := by
  induction m with
  | nil => rfl
  | cons p rest ih =>
    obtain ⟨k1, v1⟩ := p
    by_cases h : k1 = k
    · simpa [mapDelete, List.filter_cons, h] using ih
    · simp only [mapDelete, List.filter_cons] at ih ⊢
      simp [mapGet, h, ih]

theorem mapGet_mapDelete_ne (m : Registry) (k k2 : String) (h : k2 ≠ k) :
    mapGet (mapDelete m k) k2 = mapGet m k2 := by
  induction m with
  | nil => rfl
  | cons p rest ih =>
    obtain ⟨k1, v1⟩ := p
    by_cases h1 : k1 = k
    · have h2 : ¬ k = k2 := Ne.symm h
      simp only [mapDelete, List.filter_cons] at ih ⊢
      simp [mapGet, h1, h2, ih]
    · simp only [mapDelete, List.filter_cons] at ih ⊢
      by_cases h2 : k1 = k2 <;> simp [mapGet, h1, h2, h, ih]

theorem mem_mapSet (m : Registry) (k : String) (v : Conn) (p : String × Conn)
    (h : p ∈ mapSet m k v) : p ∈ m ∨ p = (k, v) := by
  induction m with
  | nil => simpa [mapSet] using h
  | cons q rest ih =>
    obtain ⟨k1, v1⟩ := q
    by_cases h1 : k1 = k
    · simp only [mapSet, if_pos h1] at h
      rcases List.mem_cons.mp h with h2 | h2
      · exact Or.inr h2
      · exact Or.inl (List.mem_cons_of_mem _ h2)
    · simp only [mapSet, if_neg h1] at h
      rcases List.mem_cons.mp h with h2 | h2
      · exact Or.inl (h2 ▸ List.mem_cons_self _ _)
      · rcases ih h2 with h3 | h3
        · exact Or.inl (List.mem_cons_of_mem _ h3)
        · exact Or.inr h3

theorem keys_mapSet_mem (m : Registry) (k x : String) (v : Conn)
    (h : x ∈ (mapSet m k v).map Prod.fst) : x ∈ m.map Prod.fst ∨ x = k := by
  rcases List.mem_map.mp h with ⟨p, hp, hx⟩
  rcases mem_mapSet m k v p hp with h1 | h1
  · exact Or.inl (hx ▸ List.mem_map_of_mem _ h1)
  · subst h1
    exact Or.inr hx.symm

theorem mem_values_mapSet (m : Registry) (k : String) (v : Conn) :
    v ∈ values (mapSet m k v) := by
  induction m with
  | nil => simp [mapSet, values]
  | cons q rest ih =>
    obtain ⟨k1, v1⟩ := q
    by_cases h1 : k1 = k
    · simp [mapSet, h1, values]
    · simp only [mapSet, if_neg h1, values, List.map_cons, List.mem_cons]
      exact Or.inr (by simpa [values] using ih)

theorem WFr_mapSet (m : Registry) (k : String) (v : Conn)
    (hwf : WFr m) (hv : v.socketId = k) : WFr (mapSet m k v) := by
  obtain ⟨hnd, hco⟩ := hwf
  induction m with
  | nil =>
    refine ⟨by simp [mapSet], ?_⟩
    intro p hp
    simp only [mapSet, List.mem_singleton] at hp
    rw [hp]
    exact hv
  | cons q rest ih =>
    obtain ⟨k1, v1⟩ := q
    simp only [List.map_cons, List.nodup_cons] at hnd
    obtain ⟨hk1, hndr⟩ := hnd
    have hcor : ∀ p ∈ rest, p.2.socketId = p.1 := fun p hp =>
      hco p (List.mem_cons_of_mem _ hp)
    by_cases h1 : k1 = k
    · refine ⟨?_, ?_⟩
      · simp only [mapSet, if_pos h1, List.map_cons]
        refine List.nodup_cons.mpr ⟨?_, hndr⟩
        rw [← h1]
        exact hk1
      · intro p hp
        simp only [mapSet, if_pos h1] at hp
        rcases List.mem_cons.mp hp with h2 | h2
        · rw [h2]; exact hv
        · exact hcor p h2
    · obtain ⟨ihnd, ihco⟩ := ih hndr hcor
      refine ⟨?_, ?_⟩
      · simp only [mapSet, if_neg h1, List.map_cons]
        refine List.nodup_cons.mpr ⟨?_, ihnd⟩
        intro hmem
        rcases keys_mapSet_mem rest k k1 v hmem with h2 | h2
        · exact hk1 h2
        · exact h1 h2
      · intro p hp
        simp only [mapSet, if_neg h1] at hp
        rcases List.mem_cons.mp hp with h2 | h2
        · rw [h2]; exact hco _ (List.mem_cons_self _ _)
        · exact ihco p h2

/-- Counting records by socketId after a Map.set: with unique keys and
key-coherent records, exactly the new record matches the key. -/
theorem countP_socketId_mapSet (m : Registry) (k : String) (v : Conn)
    (q : Conn → Bool) (hwf : WFr m) (hv : v.socketId = k) :
    (values (mapSet m k v)).countP (fun c => decide (c.socketId = k) && q c) =
      if q v then 1 else 0 := by
  obtain ⟨hnd, hco⟩ := hwf
  induction m with
  | nil => simp [mapSet, values, List.countP_cons, hv]
  | cons p rest ih =>
    obtain ⟨k1, v1⟩ := p
    simp only [List.map_cons, List.nodup_cons] at hnd
    obtain ⟨hk1, hndr⟩ := hnd
    have hcor : ∀ p ∈ rest, p.2.socketId = p.1 := fun p hp =>
      hco p (List.mem_cons_of_mem _ hp)
    by_cases h1 : k1 = k
    · have hrest : (values rest).countP (fun c => decide (c.socketId = k) && q c) = 0 := by
        rw [List.countP_eq_zero]
        intro c hc
        rcases List.mem_map.mp hc with ⟨pr, hp, hcp⟩
        have hs : c.socketId = pr.1 := by rw [← hcp]; exact hcor pr hp
        have hne : ¬ c.socketId = k := by
          rw [hs]
          intro hcontr
          have hm : pr.1 ∈ rest.map Prod.fst := List.mem_map_of_mem Prod.fst hp
          rw [hcontr, ← h1] at hm
          exact hk1 hm
        simp [hne]
      simp only [mapSet, if_pos h1, values, List.map_cons, List.countP_cons]
      simp only [values] at hrest
      rw [hrest]
      simp [hv]
    · have hv1 : v1.socketId = k1 := hco _ (List.mem_cons_self _ _)
      have hne : ¬ v1.socketId = k := by rw [hv1]; exact h1
      simp only [mapSet, if_neg h1, values, List.map_cons, List.countP_cons]
      have := ih hndr hcor
      simp only [values] at this
      rw [this]
      simp [hne]

/-! C3: explicit leave versus transport disconnect. -/

/-- C3: for every server state and connection, the explicit leave-exam
handler and the transport disconnect cleanup produce the same new state and
the same emissions: the same registry removal, the same room departure, and
user-left payloads of identical shape and field values delivered to the same
targets. -/
theorem leave_eq_disconnect : ∀ st : ServerState, ∀ sid : String,
    leaveExam st sid = disconnectExam st sid :=
  fun _ _ => rfl

/-! C9: removal is idempotent and touches nothing else. -/

/-- C9: when a connectionId is present, the first remove returns its record
and deletes it, the second remove returns the null sentinel and leaves the
registry as it was, and every other record is unchanged; no failure path
exists since removeUser is a total function. -/
theorem remove_idempotent (m : Registry) (sid : String) (u : Conn)
    (h : getUser m sid = some u) :
    removeUser m sid = (some u, mapDelete m sid) ∧
    removeUser (mapDelete m sid) sid = (none, mapDelete m sid) ∧
    ∀ sid2, sid2 ≠ sid → getUser (mapDelete m sid) sid2 = getUser m sid2 := by
  refine ⟨?_, ?_, ?_⟩
  · simp [removeUser, getUser] at h ⊢
    rw [h]
  · simp [removeUser, mapGet_mapDelete_self]
  · intro sid2 h2
    simpa [getUser] using mapGet_mapDelete_ne m sid sid2 h2

/-- Witness for C9 at a concrete two-record registry. -/
theorem remove_idempotent_witness :
    getUser wReg "s1" = some ⟨"s1", "u1", "student", some "EX1", "laptop", 3⟩ ∧
    removeUser wReg "s1" =
      (some ⟨"s1", "u1", "student", some "EX1", "laptop", 3⟩, mapDelete wReg "s1") ∧
    getUser (mapDelete wReg "s1") "s2" = getUser wReg "s2" :=
  ⟨by decide,
   (remove_idempotent wReg "s1" ⟨"s1", "u1", "student", some "EX1", "laptop", 3⟩
      (by decide)).1,
   (remove_idempotent wReg "s1" ⟨"s1", "u1", "student", some "EX1", "laptop", 3⟩
      (by decide)).2.2 "s2" (by decide)⟩

/-! C7: join with missing examId. -/

/-- C7: a join-exam whose payload has no truthy examId only sends the error
acknowledgement back to the acting socket: the state (registry and rooms)
is unchanged, the single emission is the direct error message, and only the
sender can receive it. -/
theorem join_missing_examId (st : ServerState) (sid : String) (auth : Auth)
    (p : JoinPayload) (now : Nat) (h : truthy p.examId = false) :
    joinExam st sid auth p now =
      (st, [⟨Target.toSelf Ns.exam sid, EventName.errorEv,
             Payload.errorMsg ("examId is required")⟩]) ∧
    ∀ s : SockRef,
      receives st.rooms
        ⟨Target.toSelf Ns.exam sid, EventName.errorEv,
         Payload.errorMsg ("examId is required")⟩ s = true → s.id = sid := by
  constructor
  · simp [joinExam, h]
  · intro s hs
    simp [receives] at hs
    exact hs.2

/-- Witness for C7 at a concrete payload with a missing examId. -/
theorem join_missing_examId_witness :
    truthy (JoinPayload.examId ⟨some "mallory", none, some "laptop"⟩) = false ∧
    joinExam ⟨[], []⟩ "S1" ⟨"u1", "student"⟩ ⟨some "mallory", none, some "laptop"⟩ 7 =
      (⟨[], []⟩, [⟨Target.toSelf Ns.exam "S1", EventName.errorEv,
                   Payload.errorMsg ("examId is required")⟩]) :=
  ⟨by decide,
   (join_missing_examId ⟨[], []⟩ "S1" ⟨"u1", "student"⟩
      ⟨some "mallory", none, some "laptop"⟩ 7 (by decide)).1⟩

/-! C6: admin-only control events. -/

/-- C6: for a caller whose role is not admin, exam-start and exam-end are
silent no-ops (no emission to anyone, the caller included, and an unchanged
state); for an admin caller the start and end signals carry the timestamp
and are emitted to the whole exam room, reaching every member of the room,
the actor included when it is a member. -/
theorem exam_control_admin_only (st : ServerState) (auth : Auth)
    (examId : Option String) (now : Nat) :
    (auth.role ≠ "admin" →
      examStart st auth examId now = (st, []) ∧
      examEnd st auth examId now = (st, [])) ∧
    (auth.role = "admin" →
      examStart st auth examId now =
        (st, [⟨Target.toRoomAll Ns.exam (examRoom (jsStr examId)),
               EventName.examStartEv, Payload.startSignal now⟩]) ∧
      examEnd st auth examId now =
        (st, [⟨Target.toRoomAll Ns.exam (examRoom (jsStr examId)),
               EventName.examEndEv, Payload.endSignal now⟩]) ∧
      ∀ s : SockRef, s.ns = Ns.exam →
        inRoom st.rooms ⟨Ns.exam, examRoom (jsStr examId)⟩ s.id = true →
        receives st.rooms
          ⟨Target.toRoomAll Ns.exam (examRoom (jsStr examId)),
           EventName.examStartEv, Payload.startSignal now⟩ s = true) := by
  constructor
  · intro h
    exact ⟨by simp [examStart, h], by simp [examEnd, h]⟩
  · intro h
    refine ⟨by simp [examStart, h], by simp [examEnd, h], ?_⟩
    intro s hns hmem
    simp [receives, hns, hmem]

/-- Witness for C6: a student caller produces nothing, an admin caller
produces the room-wide start signal. -/
theorem exam_control_admin_only_witness :
    (("student" : String) ≠ "admin" ∧
      examStart ⟨[], []⟩ ⟨"u1", "student"⟩ (some "EX1") 9 = (⟨[], []⟩, [])) ∧
    (("admin" : String) = "admin" ∧
      examStart ⟨[], []⟩ ⟨"a1", "admin"⟩ (some "EX1") 9 =
        (⟨[], []⟩, [⟨Target.toRoomAll Ns.exam (examRoom (jsStr (some "EX1"))),
                     EventName.examStartEv, Payload.startSignal 9⟩])) :=
  ⟨⟨by decide,
    ((exam_control_admin_only ⟨[], []⟩ ⟨"u1", "student"⟩ (some "EX1") 9).1 (by decide)).1⟩,
   ⟨rfl,
    ((exam_control_admin_only ⟨[], []⟩ ⟨"a1", "admin"⟩ (some "EX1") 9).2 rfl).1⟩⟩

/-! C8: the join identity comes from the verified connection, not the wire. -/

/-- C8: the modular join-exam handler derives the stored and emitted userId
from the verified identity attached at connect time and never reads identity
fields of the client payload: two payloads that agree on examId and device
(and may differ arbitrarily in a client-supplied userId field) produce
identical states and emissions; on success the stored record carries the
identity userId, and every user-joined emission carries the identity userId. -/
theorem join_userId_from_identity (st : ServerState) (sid : String) (auth : Auth)
    (p1 p2 : JoinPayload) (now : Nat)
    (he : p1.examId = p2.examId) (hd : p1.device = p2.device) :
    joinExam st sid auth p1 now = joinExam st sid auth p2 now ∧
    (truthy p1.examId = true →
      getUser (joinExam st sid auth p1 now).1.registry sid =
        some ⟨sid, auth.userId, auth.role, some (jsStr p1.examId),
              p1.device.getD "laptop", now⟩) ∧
    ∀ em ∈ (joinExam st sid auth p1 now).2, ∀ u d e t,
      em.payload = Payload.userJoined u d e t → u = auth.userId := by
  refine ⟨?_, ?_, ?_⟩
  · obtain ⟨u1, e1, d1⟩ := p1
    obtain ⟨u2, e2, d2⟩ := p2
    simp only at he hd
    subst he
    subst hd
    simp [joinExam]
  · intro h
    simp [joinExam, h, getUser, addUser, mapGet_mapSet_self]
  · intro em hem u d e t hp
    by_cases ht : truthy p1.examId
    · simp only [joinExam, ht, Bool.not_true, Bool.false_eq_true, if_false,
        List.mem_cons, List.mem_singleton, List.not_mem_nil, or_false] at hem
      rcases hem with hem | hem <;> rw [hem] at hp <;> simp at hp
      exact hp.1.symm
    · simp only [joinExam, Bool.eq_false_iff.mpr ht, Bool.not_false, if_true,
        List.mem_singleton] at hem
      rw [hem] at hp
      simp at hp

/-- Witness for C8: two concrete payloads differing only in the wire userId
field behave identically under the modular handler. -/
theorem join_userId_from_identity_witness :
    (JoinPayload.examId ⟨some "alice", some "EX1", some "laptop"⟩ =
      JoinPayload.examId ⟨some "mallory", some "EX1", some "laptop"⟩) ∧
    joinExam ⟨[], []⟩ "S1" ⟨"u1", "student"⟩
        ⟨some "alice", some "EX1", some "laptop"⟩ 2 =
      joinExam ⟨[], []⟩ "S1" ⟨"u1", "student"⟩
        ⟨some "mallory", some "EX1", some "laptop"⟩ 2 :=
  ⟨rfl,
   (join_userId_from_identity ⟨[], []⟩ "S1" ⟨"u1", "student"⟩
      ⟨some "alice", some "EX1", some "laptop"⟩
      ⟨some "mallory", some "EX1", some "laptop"⟩ 2 rfl rfl).1⟩

/-! C1: admin-channel notifications of join and leave. -/

/-- C1: evaluation at the failing input. S1 joins exam EX1 through the
modular handler while admin socket A1 is connected on the admin namespace;
neither the join emissions nor the explicit-leave emissions nor the
transport-disconnect emissions are received by the admin socket, so the
admin channel sees no user-joined with totalInRoom and no user-left with
remainingInRoom, although the repository test suite and the superseded
inline handlers expect exactly those broadcasts. -/
theorem admin_channel_gets_no_join_leave :
    (joinExam (adminConnect ⟨[], []⟩ "A1" ⟨"adm", "admin"⟩ 1).1 "S1"
        ⟨"u1", "student"⟩ ⟨none, some "EX1", some "laptop"⟩ 2).2.all
      (fun em => !(receives (joinExam (adminConnect ⟨[], []⟩ "A1" ⟨"adm", "admin"⟩ 1).1
          "S1" ⟨"u1", "student"⟩ ⟨none, some "EX1", some "laptop"⟩ 2).1.rooms em
        ⟨"A1", Ns.admin⟩)) = true ∧
    (leaveExam (joinExam (adminConnect ⟨[], []⟩ "A1" ⟨"adm", "admin"⟩ 1).1 "S1"
        ⟨"u1", "student"⟩ ⟨none, some "EX1", some "laptop"⟩ 2).1 "S1").2.all
      (fun em => !(receives (leaveExam (joinExam
          (adminConnect ⟨[], []⟩ "A1" ⟨"adm", "admin"⟩ 1).1 "S1" ⟨"u1", "student"⟩
          ⟨none, some "EX1", some "laptop"⟩ 2).1 "S1").1.rooms em
        ⟨"A1", Ns.admin⟩)) = true ∧
    (disconnectExam (joinExam (adminConnect ⟨[], []⟩ "A1" ⟨"adm", "admin"⟩ 1).1 "S1"
        ⟨"u1", "student"⟩ ⟨none, some "EX1", some "laptop"⟩ 2).1 "S1").2.all
      (fun em => !(receives (disconnectExam (joinExam
          (adminConnect ⟨[], []⟩ "A1" ⟨"adm", "admin"⟩ 1).1 "S1" ⟨"u1", "student"⟩
          ⟨none, some "EX1", some "laptop"⟩ 2).1 "S1").1.rooms em
        ⟨"A1", Ns.admin⟩)) = true := by
  decide

/-! C2: violation relay. -/

/-- C2 counterexample: mobile M and laptop L both join session group SID1
while admin A1 is connected on the admin namespace; a violation alert sent
by M carrying examId EX1 is delivered back to the sender M (the relay uses
the include-everyone primitive), and no emission of the handler is received
by the admin-namespace socket, since the monitor room lives on the exam
namespace and nothing ever joins it. -/
theorem violation_echo_and_admin_miss :
    let stA := (adminConnect ⟨[], []⟩ "A1" ⟨"adm", "admin"⟩ 1).1
    let st1 := (mobileJoin stA "M" (some "SID1")).1
    let st2 := (sessionJoin st1 "L" (some "SID1")).1
    let r := violationAlert st2 "M" none
      ⟨some "SID1", some "phone-detected", some "high", some "t1", some "EX1", none⟩
    r.2.any (fun em => decide (em.event = EventName.violationDetectedEv) &&
      receives r.1.rooms em ⟨"M", Ns.exam⟩) = true ∧
    r.2.all (fun em => !(receives r.1.rooms em ⟨"A1", Ns.admin⟩)) = true := by
  decide

/-- C2 amended: the violation alert leaves the state unchanged and relays a
violation-detected to the whole session group of the exam namespace,
reaching every member of the group including the sender; when the payload
carries a truthy examId it additionally emits a violation-detected carrying
the sessionId and the sender identity (or the anonymous fallback) to the
room monitor:examId of the exam namespace; no socket of the admin namespace
receives any of these emissions. -/
theorem violation_relay_behavior (st : ServerState) (sid : String)
    (user : Option Auth) (data : ViolationData) (hu : data.userId = none) :
    (violationAlert st sid user data).1 = st ∧
    (⟨Target.toRoomAll Ns.exam ("session:" ++ jsStr data.sessionId),
       EventName.violationDetectedEv,
       Payload.violationRelay data.violation data.confidence data.timestamp
         data.examId data.userId⟩ : Emission) ∈ (violationAlert st sid user data).2 ∧
    (∀ mid : String,
      inRoom st.rooms ⟨Ns.exam, "session:" ++ jsStr data.sessionId⟩ mid = true →
      receives st.rooms
        ⟨Target.toRoomAll Ns.exam ("session:" ++ jsStr data.sessionId),
         EventName.violationDetectedEv,
         Payload.violationRelay data.violation data.confidence data.timestamp
           data.examId data.userId⟩ ⟨mid, Ns.exam⟩ = true) ∧
    (truthy data.examId = true →
      (⟨Target.toRoomAll Ns.exam ("monitor:" ++ jsStr data.examId),
         EventName.violationDetectedEv,
         Payload.violationAdmin data.sessionId
           (match user with | some a => a.userId | none => "anonymous-mobile")
           data.violation data.confidence data.timestamp data.examId⟩ : Emission)
        ∈ (violationAlert st sid user data).2) ∧
    (∀ s : SockRef, s.ns = Ns.admin →
      ∀ em ∈ (violationAlert st sid user data).2, receives st.rooms em s = false) := by
  refine ⟨?_, ?_, ?_, ?_, ?_⟩
  · by_cases h : truthy data.examId <;> simp [violationAlert, h]
  · by_cases h : truthy data.examId <;> simp [violationAlert, h]
  · intro mid hmem
    simp [receives, hmem]
  · intro h
    simp [violationAlert, h, hu]
  · intro s hns em hem
    by_cases h : truthy data.examId
    · simp [violationAlert, h] at hem
      rcases hem with hem | hem <;> rw [hem] <;> simp [receives, hns]
    · simp [violationAlert, h] at hem
      rw [hem]
      simp [receives, hns]

/-- Witness for C2 at a concrete alert with no wire userId field. -/
theorem violation_relay_behavior_witness :
    (ViolationData.userId
        ⟨some "SID1", some "v", none, none, some "EX1", none⟩ = none) ∧
    (⟨Target.toRoomAll Ns.exam ("session:" ++ jsStr (some "SID1")),
       EventName.violationDetectedEv,
       Payload.violationRelay (some "v") none none (some "EX1") none⟩ : Emission) ∈
      (violationAlert ⟨[], []⟩ "M" none
        ⟨some "SID1", some "v", none, none, some "EX1", none⟩).2 :=
  ⟨rfl,
   (violation_relay_behavior ⟨[], []⟩ "M" none
      ⟨some "SID1", some "v", none, none, some "EX1", none⟩ rfl).2.1⟩

/-! Room membership lemmas. -/

theorem inRoom_roomJoin_self (rs : Rooms) (k : RoomKey) (sid : String) :
    inRoom (roomJoin rs k sid) k sid = true := by
  by_cases h : (k, sid) ∈ rs <;> simp [roomJoin, inRoom, h]

theorem inRoom_roomJoin_mono (rs : Rooms) (k k1 : RoomKey) (sid s1 : String)
    (h : inRoom rs k1 s1 = true) : inRoom (roomJoin rs k sid) k1 s1 = true := by
  by_cases hmem : (k, sid) ∈ rs
  · simpa [roomJoin, hmem] using h
  · simp only [inRoom, decide_eq_true_eq] at h ⊢
    simp only [roomJoin, if_neg hmem]
    exact List.mem_append_left _ h

/-! C5: the join invariant. -/

/-- C5: after a successful join-exam the joining connection appears in
getUsersByExam of the joined exam exactly once, and the exam-state
acknowledgement sent to the joiner carries a users array containing an
entry with the joiner identity userId. -/
theorem join_roster_invariant (st : ServerState) (sid : String) (auth : Auth)
    (p : JoinPayload) (now : Nat) (hwf : WFr st.registry)
    (h : truthy p.examId = true) :
    ((getUsersByExam (joinExam st sid auth p now).1.registry
        (jsStr p.examId)).countP (fun c => decide (c.socketId = sid)) = 1) ∧
    ∃ users message,
      (⟨Target.toSelf Ns.exam sid, EventName.examStateEv,
        Payload.examState (jsStr p.examId) users message⟩ : Emission) ∈
          (joinExam st sid auth p now).2 ∧
      ∃ r ∈ users, r.userId = auth.userId := by
  have hreg : (joinExam st sid auth p now).1.registry =
      mapSet st.registry sid
        ⟨sid, auth.userId, auth.role, some (jsStr p.examId),
         p.device.getD "laptop", now⟩ := by
    simp [joinExam, h, addUser]
  constructor
  · rw [hreg]
    simp only [getUsersByExam, getUsersByExamV, List.countP_filter]
    have := countP_socketId_mapSet st.registry sid
      ⟨sid, auth.userId, auth.role, some (jsStr p.examId),
       p.device.getD "laptop", now⟩
      (fun c => decide (c.examId = some (jsStr p.examId))) hwf rfl
    simpa using this
  · have hm : (⟨sid, auth.userId, auth.role, some (jsStr p.examId),
        p.device.getD "laptop", now⟩ : Conn) ∈
        getUsersByExam (mapSet st.registry sid
          ⟨sid, auth.userId, auth.role, some (jsStr p.examId),
           p.device.getD "laptop", now⟩) (jsStr p.examId) := by
      simp only [getUsersByExam, getUsersByExamV]
      exact List.mem_filter.mpr ⟨mem_values_mapSet _ _ _, by simp⟩
    refine ⟨(getUsersByExam (mapSet st.registry sid
        ⟨sid, auth.userId, auth.role, some (jsStr p.examId),
         p.device.getD "laptop", now⟩) (jsStr p.examId)).map
          (fun u => ⟨u.userId, u.device, u.connectedAt⟩),
      "Joined exam " ++ jsStr p.examId, ?_, ?_⟩
    · simp [joinExam, h, addUser]
    · exact ⟨⟨auth.userId, p.device.getD "laptop", now⟩,
        List.mem_map_of_mem _ hm, rfl⟩

/-- Witness for C5 at a concrete successful join on the empty state. -/
theorem join_roster_invariant_witness :
    WFr (⟨[], []⟩ : ServerState).registry ∧
    truthy (JoinPayload.examId ⟨none, some "EX1", some "laptop"⟩) = true ∧
    ((getUsersByExam (joinExam ⟨[], []⟩ "S1" ⟨"u1", "student"⟩
        ⟨none, some "EX1", some "laptop"⟩ 2).1.registry
        (jsStr (JoinPayload.examId ⟨none, some "EX1", some "laptop"⟩))).countP
      (fun c => decide (c.socketId = "S1")) = 1) :=
  ⟨by decide, by decide,
   (join_roster_invariant ⟨[], []⟩ "S1" ⟨"u1", "student"⟩
      ⟨none, some "EX1", some "laptop"⟩ 2 (by decide) (by decide)).1⟩

/-! C10: re-joining a different exam. -/

/-- C10: when a connection registered to exam A joins exam B, its single
registry record is overwritten with a freshly stamped connectedAt (it
disappears from getUsersByExam of A and appears exactly once for B), while
the connection stays in the room group of exam A and the re-join emits no
user-left event at all. -/
theorem rejoin_overwrites_without_leave (st : ServerState) (sid : String)
    (auth : Auth) (eA eB : String) (dA dB : Option String) (now1 now2 : Nat)
    (hwf : WFr st.registry) (hA : eA ≠ "") (hB : eB ≠ "") (hAB : eA ≠ eB) :
    ((getUsersByExam (joinExam (joinExam st sid auth ⟨none, some eA, dA⟩ now1).1
        sid auth ⟨none, some eB, dB⟩ now2).1.registry eA).countP
      (fun c => decide (c.socketId = sid)) = 0) ∧
    ((getUsersByExam (joinExam (joinExam st sid auth ⟨none, some eA, dA⟩ now1).1
        sid auth ⟨none, some eB, dB⟩ now2).1.registry eB).countP
      (fun c => decide (c.socketId = sid)) = 1) ∧
    getUser (joinExam (joinExam st sid auth ⟨none, some eA, dA⟩ now1).1
        sid auth ⟨none, some eB, dB⟩ now2).1.registry sid =
      some ⟨sid, auth.userId, auth.role, some eB, dB.getD "laptop", now2⟩ ∧
    inRoom (joinExam (joinExam st sid auth ⟨none, some eA, dA⟩ now1).1
        sid auth ⟨none, some eB, dB⟩ now2).1.rooms ⟨Ns.exam, examRoom eA⟩ sid = true ∧
    ∀ em ∈ (joinExam (joinExam st sid auth ⟨none, some eA, dA⟩ now1).1
        sid auth ⟨none, some eB, dB⟩ now2).2, em.event ≠ EventName.userLeftEv := by
  have htA : truthy (some eA) = true := by simp [truthy, hA]
  have htB : truthy (some eB) = true := by simp [truthy, hB]
  have hreg1 : (joinExam st sid auth ⟨none, some eA, dA⟩ now1).1.registry =
      mapSet st.registry sid
        ⟨sid, auth.userId, auth.role, some eA, dA.getD "laptop", now1⟩ := by
    simp [joinExam, htA, addUser, jsStr]
  have hrooms1 : (joinExam st sid auth ⟨none, some eA, dA⟩ now1).1.rooms =
      roomJoin st.rooms ⟨Ns.exam, examRoom eA⟩ sid := by
    simp [joinExam, htA, jsStr]
  have hwf1 : WFr (mapSet st.registry sid
      ⟨sid, auth.userId, auth.role, some eA, dA.getD "laptop", now1⟩) :=
    WFr_mapSet _ _ _ hwf rfl
  have hreg2 : (joinExam (joinExam st sid auth ⟨none, some eA, dA⟩ now1).1
      sid auth ⟨none, some eB, dB⟩ now2).1.registry =
      mapSet (mapSet st.registry sid
          ⟨sid, auth.userId, auth.role, some eA, dA.getD "laptop", now1⟩) sid
        ⟨sid, auth.userId, auth.role, some eB, dB.getD "laptop", now2⟩ := by
    rw [show (joinExam (joinExam st sid auth ⟨none, some eA, dA⟩ now1).1
        sid auth ⟨none, some eB, dB⟩ now2).1.registry =
        addUser (joinExam st sid auth ⟨none, some eA, dA⟩ now1).1.registry sid
          auth.userId auth.role (some (jsStr (some eB))) (dB.getD "laptop") now2 from by
      simp [joinExam, htB]]
    rw [hreg1]
    simp [addUser, jsStr]
  have hrooms2 : (joinExam (joinExam st sid auth ⟨none, some eA, dA⟩ now1).1
      sid auth ⟨none, some eB, dB⟩ now2).1.rooms =
      roomJoin (roomJoin st.rooms ⟨Ns.exam, examRoom eA⟩ sid)
        ⟨Ns.exam, examRoom eB⟩ sid := by
    rw [show (joinExam (joinExam st sid auth ⟨none, some eA, dA⟩ now1).1
        sid auth ⟨none, some eB, dB⟩ now2).1.rooms =
        roomJoin (joinExam st sid auth ⟨none, some eA, dA⟩ now1).1.rooms
          ⟨Ns.exam, examRoom (jsStr (some eB))⟩ sid from by
      simp [joinExam, htB]]
    rw [hrooms1]
    simp [jsStr]
  refine ⟨?_, ?_, ?_, ?_, ?_⟩
  · rw [hreg2]
    simp only [getUsersByExam, getUsersByExamV, List.countP_filter]
    have := countP_socketId_mapSet
      (mapSet st.registry sid
        ⟨sid, auth.userId, auth.role, some eA, dA.getD "laptop", now1⟩) sid
      ⟨sid, auth.userId, auth.role, some eB, dB.getD "laptop", now2⟩
      (fun c => decide (c.examId = some eA)) hwf1 rfl
    simpa [Ne.symm hAB] using this
  · rw [hreg2]
    simp only [getUsersByExam, getUsersByExamV, List.countP_filter]
    have := countP_socketId_mapSet
      (mapSet st.registry sid
        ⟨sid, auth.userId, auth.role, some eA, dA.getD "laptop", now1⟩) sid
      ⟨sid, auth.userId, auth.role, some eB, dB.getD "laptop", now2⟩
      (fun c => decide (c.examId = some eB)) hwf1 rfl
    simpa using this
  · rw [hreg2]
    exact mapGet_mapSet_self _ _ _
  · rw [hrooms2]
    exact inRoom_roomJoin_mono _ _ _ _ _ (inRoom_roomJoin_self _ _ _)
  · intro em hem
    simp [joinExam, htB] at hem
    rcases hem with hem | hem <;> rw [hem] <;> simp

/-- Witness for C10: a concrete re-join from EX1 to EX2 on the empty state. -/
theorem rejoin_overwrites_without_leave_witness :
    WFr (⟨[], []⟩ : ServerState).registry ∧
    ("EX1" : String) ≠ "EX2" ∧
    getUser (joinExam (joinExam ⟨[], []⟩ "S1" ⟨"u1", "student"⟩
        ⟨none, some "EX1", some "laptop"⟩ 2).1
        "S1" ⟨"u1", "student"⟩ ⟨none, some "EX2", some "laptop"⟩ 5).1.registry "S1" =
      some ⟨"S1", "u1", "student", some "EX2",
            (Option.getD (some "laptop") "laptop"), 5⟩ :=
  ⟨by decide, by decide,
   (rejoin_overwrites_without_leave ⟨[], []⟩ "S1" ⟨"u1", "student"⟩ "EX1" "EX2"
      (some "laptop") (some "laptop") 2 5
      (by decide) (by decide) (by decide) (by decide)).2.2.1⟩

/-! Counting helpers for the stats invariant. -/

theorem countP_congr_mem {α : Type} (l : List α) (p q : α → Bool)
    (h : ∀ a ∈ l, p a = q a) : l.countP p = l.countP q := by
  induction l with
  | nil => rfl
  | cons a t ih =>
    rw [List.countP_cons, List.countP_cons, h a (List.mem_cons_self _ _),
      ih (fun x hx => h x (List.mem_cons_of_mem _ hx))]

theorem length_eq_countP_not {α : Type} (l : List α) (p : α → Bool) :
    l.length = l.countP p + l.countP (fun a => !(p a)) := by
  induction l with
  | nil => rfl
  | cons a t ih =>
    by_cases h : p a <;>
      simp [List.countP_cons, h, ih] <;> omega

theorem countP_or_disjoint {α : Type} (l : List α) (p q : α → Bool)
    (h : ∀ a ∈ l, ¬(p a = true ∧ q a = true)) :
    l.countP (fun a => p a || q a) = l.countP p + l.countP q := by
  induction l with
  | nil => rfl
  | cons a t ih =>
    have ht : ∀ x ∈ t, ¬(p x = true ∧ q x = true) :=
      fun x hx => h x (List.mem_cons_of_mem _ hx)
    have ha := h a (List.mem_cons_self _ _)
    by_cases hp : p a
    · by_cases hq : q a
      · exact absurd ⟨hp, hq⟩ ha
      · simp [List.countP_cons, hp, hq, ih ht]
        omega
    · by_cases hq : q a <;> simp [List.countP_cons, hp, hq, ih ht] <;> omega

theorem map_congr_mem {α β : Type} (l : List α) (f g : α → β)
    (h : ∀ a ∈ l, f a = g a) : l.map f = l.map g := by
  induction l with
  | nil => rfl
  | cons a t ih =>
    rw [List.map_cons, List.map_cons, h a (List.mem_cons_self _ _),
      ih (fun x hx => h x (List.mem_cons_of_mem _ hx))]

theorem mem_setAdd (s : List String) (e x : String) :
    x ∈ setAdd s e ↔ x ∈ s ∨ x = e := by
  by_cases h : e ∈ s
  · simp only [setAdd, if_pos h]
    exact ⟨Or.inl, fun hx => hx.elim id (fun hx => hx ▸ h)⟩
  · simp [setAdd, if_neg h, List.mem_append]

theorem nodup_setAdd (s : List String) (e : String) (h : s.Nodup) :
    (setAdd s e).Nodup := by
  by_cases hm : e ∈ s
  · simpa [setAdd, hm] using h
  · simp only [setAdd, if_neg hm]
    rw [List.nodup_append]
    refine ⟨h, List.nodup_singleton e, ?_⟩
    intro a ha hb
    rw [List.mem_singleton] at hb
    rw [hb] at ha
    exact hm ha

/-! Lemmas relating the getStats loop to direct recomputations. -/

theorem foldl_statsStep_students (l : List Conn) (a : StatsAcc) :
    (l.foldl statsStep a).students =
      a.students + l.countP (fun c => decide (c.role = "student")) := by
  induction l generalizing a with
  | nil => simp
  | cons c t ih =>
    rw [List.foldl_cons, ih]
    by_cases h : c.role = "student" <;>
      simp [statsStep, h, List.countP_cons] <;> omega

theorem foldl_statsStep_admins (l : List Conn) (a : StatsAcc) :
    (l.foldl statsStep a).admins =
      a.admins + l.countP (fun c => decide (c.role = "admin")) := by
  induction l generalizing a with
  | nil => simp
  | cons c t ih =>
    rw [List.foldl_cons, ih]
    by_cases h : c.role = "admin" <;>
      simp [statsStep, h, List.countP_cons] <;> omega

theorem foldl_statsStep_exams (l : List Conn) (a : StatsAcc) :
    (l.foldl statsStep a).exams = l.foldl examStep a.exams := by
  induction l generalizing a with
  | nil => rfl
  | cons c t ih =>
    rw [List.foldl_cons, List.foldl_cons, ih]
    by_cases h : truthy c.examId <;> simp [statsStep, examStep, h]

theorem activeExamIds_eq (m : Registry) :
    activeExamIds m = (values m).foldl examStep [] := by
  rw [activeExamIds, foldl_statsStep_exams]

theorem nodup_foldl_examStep (l : List Conn) (s : List String) (h : s.Nodup) :
    (l.foldl examStep s).Nodup := by
  induction l generalizing s with
  | nil => exact h
  | cons c t ih =>
    rw [List.foldl_cons]
    apply ih
    by_cases hc : truthy c.examId
    · simp only [examStep, if_pos hc]
      exact nodup_setAdd _ _ h
    · simpa [examStep, if_neg hc] using h

theorem mem_foldl_examStep (l : List Conn) (s : List String) (x : String) :
    x ∈ l.foldl examStep s ↔
      x ∈ s ∨ ∃ c ∈ l, truthy c.examId = true ∧ jsStr c.examId = x := by
  induction l generalizing s with
  | nil => simp
  | cons c t ih =>
    rw [List.foldl_cons, ih]
    by_cases hc : truthy c.examId
    · simp only [examStep, if_pos hc, mem_setAdd]
      constructor
      · rintro ((hx | hx) | hx)
        · exact Or.inl hx
        · exact Or.inr ⟨c, List.mem_cons_self _ _, hc, hx.symm⟩
        · obtain ⟨d, hd, hdt, hdx⟩ := hx
          exact Or.inr ⟨d, List.mem_cons_of_mem _ hd, hdt, hdx⟩
      · rintro (hx | ⟨d, hd, hdt, hdx⟩)
        · exact Or.inl (Or.inl hx)
        · rcases List.mem_cons.mp hd with hd | hd
          · rw [hd] at hdx
            exact Or.inl (Or.inr hdx.symm)
          · exact Or.inr ⟨d, hd, hdt, hdx⟩
    · simp only [examStep, if_neg hc]
      constructor
      · rintro (hx | hx)
        · exact Or.inl hx
        · obtain ⟨d, hd, hdt, hdx⟩ := hx
          exact Or.inr ⟨d, List.mem_cons_of_mem _ hd, hdt, hdx⟩
      · rintro (hx | ⟨d, hd, hdt, hdx⟩)
        · exact Or.inl hx
        · rcases List.mem_cons.mp hd with hd | hd
          · rw [hd] at hdt
            exact absurd hdt hc
          · exact Or.inr ⟨d, hd, hdt, hdx⟩

theorem mem_activeExamIds_ne_empty (m : Registry) (x : String)
    (h : x ∈ activeExamIds m) : x ≠ "" := by
  rw [activeExamIds_eq, mem_foldl_examStep] at h
  rcases h with h | ⟨c, hc, ht, hx⟩
  · simp at h
  · cases hxe : c.examId with
    | none => rw [hxe] at ht; simp [truthy] at ht
    | some s =>
      rw [hxe] at ht
      rw [← hx, hxe]
      simpa [truthy, jsStr] using ht

theorem sum_countP_nodup {α : Type} (l : List α) (f : α → Option String)
    (es : List String) (hnd : es.Nodup) :
    (es.map (fun e => l.countP (fun c => decide (f c = some e)))).sum =
      l.countP (fun c => es.any (fun e => decide (f c = some e))) := by
  induction es with
  | nil => simp
  | cons e t ih =>
    obtain ⟨he, ht⟩ := List.nodup_cons.mp hnd
    simp only [List.map_cons, List.sum_cons, List.any_cons]
    have hdisj : ∀ a ∈ l, ¬((fun c => decide (f c = some e)) a = true ∧
        (fun c => t.any (fun x => decide (f c = some x))) a = true) := by
      intro a ha hcontra
      obtain ⟨h1, h2⟩ := hcontra
      simp only [decide_eq_true_eq] at h1
      rw [List.any_eq_true] at h2
      obtain ⟨e2, he2, hd2⟩ := h2
      rw [decide_eq_true_eq, h1] at hd2
      cases Option.some.inj hd2
      exact he he2
    rw [ih ht, countP_or_disjoint l _ _ hdisj]

theorem any_activeExamIds_eq_truthy (m : Registry) (c : Conn)
    (hc : c ∈ values m) :
    (activeExamIds m).any (fun e => decide (c.examId = some e)) =
      truthy c.examId := by
  by_cases ht : truthy c.examId
  · cases hx : c.examId with
    | none => rw [hx] at ht; simp [truthy] at ht
    | some s =>
      have hmem : s ∈ activeExamIds m := by
        rw [activeExamIds_eq, mem_foldl_examStep]
        exact Or.inr ⟨c, hc, ht, by simp [hx, jsStr]⟩
      rw [hx] at ht
      rw [ht, List.any_eq_true]
      exact ⟨s, hmem, by simp⟩
  · rw [Bool.not_eq_true] at ht
    rw [ht]
    rw [List.any_eq_false]
    intro e he
    simp only [decide_eq_true_eq]
    intro hx
    have hne : e ≠ "" := mem_activeExamIds_ne_empty m e he
    rw [hx] at ht
    simp [truthy, hne] at ht

/-! C4: the stats invariant. -/

/-- C4 counterexample: a single addUser call registering a student with no
examId makes stats total 1 while the sum of getByExam over the distinct
truthy examIds plus the admin-role count is 0, so the claimed sum identity
fails on this reachable registry. -/
theorem stats_sum_counterexample :
    (getStats (addUser [] "s1" "u1" "student" none "laptop" 0)).total ≠
      ((activeExamIds (addUser [] "s1" "u1" "student" none "laptop" 0)).map
        (fun e => (getUsersByExam
          (addUser [] "s1" "u1" "student" none "laptop" 0) e).length)).sum +
      (getUsersByRole (addUser [] "s1" "u1" "student" none "laptop" 0)
        "admin").length := by
  decide

/-- C4 amended: stats total always equals the number of registered entries
and getStats always equals the counts recomputed by a fresh scan; the sum
identity (total equals getByExam summed over the distinct truthy examIds
plus the admin-role count) holds whenever every record carries a truthy
examId precisely when its role is not admin, and the counterexample shows
it can fail without that discipline. -/
theorem stats_recompute_invariant (m : Registry) :
    (getStats m).total = m.length ∧
    getStats m = specStats m ∧
    ((∀ c ∈ values m, truthy c.examId = !(decide (c.role = "admin"))) →
      (getStats m).total =
        ((activeExamIds m).map (fun e => (getUsersByExam m e).length)).sum +
        (getUsersByRole m "admin").length) := by
  refine ⟨rfl, ?_, ?_⟩
  · have hstud : ((values m).foldl statsStep ⟨0, 0, []⟩).students =
        ((values m).filter (fun c => decide (c.role = "student"))).length := by
      rw [foldl_statsStep_students, List.countP_eq_length_filter]
      simp
    have hadm : ((values m).foldl statsStep ⟨0, 0, []⟩).admins =
        ((values m).filter (fun c => decide (c.role = "admin"))).length := by
      rw [foldl_statsStep_admins, List.countP_eq_length_filter]
      simp
    have hexams : ((values m).foldl statsStep ⟨0, 0, []⟩).exams.length =
        ((values m).filterMap (fun c =>
          if truthy c.examId then some (jsStr c.examId) else none)).dedup.length := by
      rw [foldl_statsStep_exams]
      have hnd1 : ((values m).foldl examStep []).Nodup :=
        nodup_foldl_examStep _ _ List.nodup_nil
      have hnd2 : ((values m).filterMap (fun c =>
          if truthy c.examId then some (jsStr c.examId) else none)).dedup.Nodup :=
        List.nodup_dedup _
      have hiff : ∀ x, x ∈ (values m).foldl examStep [] ↔
          x ∈ ((values m).filterMap (fun c =>
            if truthy c.examId then some (jsStr c.examId) else none)).dedup := by
        intro x
        rw [mem_foldl_examStep, List.mem_dedup, List.mem_filterMap]
        constructor
        · rintro (hx | ⟨c, hc, hts, hj⟩)
          · simp at hx
          · exact ⟨c, hc, by rw [if_pos hts, hj]⟩
        · rintro ⟨c, hc, hf⟩
          by_cases hts : truthy c.examId
          · rw [if_pos hts] at hf
            exact Or.inr ⟨c, hc, hts, Option.some.inj hf⟩
          · rw [if_neg hts] at hf
            exact absurd hf (by simp)
      exact ((List.perm_ext_iff_of_nodup hnd1 hnd2).mpr hiff).length_eq
    simp only [getStats, specStats]
    rw [hstud, hadm, hexams]
  · intro H
    have hnd : (activeExamIds m).Nodup := by
      rw [activeExamIds_eq]
      exact nodup_foldl_examStep _ _ List.nodup_nil
    have hmap : (activeExamIds m).map (fun e => (getUsersByExam m e).length) =
        (activeExamIds m).map (fun e =>
          (values m).countP (fun c => decide (c.examId = some e))) :=
      map_congr_mem _ _ _ (fun e _ => by
        simp [getUsersByExam, getUsersByExamV, List.countP_eq_length_filter])
    rw [hmap, sum_countP_nodup (values m) (fun c => c.examId) (activeExamIds m) hnd]
    have h1 : (values m).countP (fun c =>
        (activeExamIds m).any (fun e => decide (c.examId = some e))) =
        (values m).countP (fun c => truthy c.examId) :=
      countP_congr_mem _ _ _ (fun c hc => any_activeExamIds_eq_truthy m c hc)
    have h2 : (getUsersByRole m "admin").length =
        (values m).countP (fun c => !(truthy c.examId)) := by
      rw [getUsersByRole, ← List.countP_eq_length_filter]
      refine countP_congr_mem _ _ _ (fun c hc => ?_)
      rw [H c hc]
      simp
    rw [h1, h2]
    show m.length = _
    rw [show m.length = (values m).length from (List.length_map _ _).symm]
    exact length_eq_countP_not (values m) (fun c => truthy c.examId)

/-- Witness for C4 on a concrete registry of two student records that both
carry an examId (every record satisfies the amended discipline). -/
theorem stats_recompute_invariant_witness :
    (values wReg).all
      (fun c => truthy c.examId == !(decide (c.role = "admin"))) = true ∧
    (getStats wReg).total =
      ((activeExamIds wReg).map (fun e => (getUsersByExam wReg e).length)).sum +
      (getUsersByRole wReg "admin").length :=
  ⟨by decide, (stats_recompute_invariant wReg).2.2 (by decide)⟩

end Parallax
